import Mathlib

/-!
Shallow embedding of the appointment-scheduler backend
(src/backend/index.js) : data model, token assignment, listing,
update and delete handlers, together with proofs of the behavioural
properties stated in the specification.

Dates are modelled as epoch milliseconds (Int), exactly the value a
JavaScript Date object holds; strings are Lean Strings.  An optional
request field is an Option: none models an absent (undefined) JSON
field, and JavaScript truthiness of a string field is "present and
not the empty string".
-/

/-- Milliseconds in one UTC calendar day.  JavaScript epoch time has no
leap seconds, so adding one calendar day with setUTCDate always adds
exactly this amount. -/
def msPerDay : Int := 86400000

/-- Calendar-day index of an epoch-milliseconds timestamp: floor division
by the day length (floor, not truncation, so pre-1970 dates are bucketed
the way setUTCHours(0,0,0,0) buckets them). -/
def dayIdx (t : Int) : Int := Int.fdiv t msPerDay

/-- Midnight UTC of the calendar day containing t.  Models
dayStart = new Date(appointmentDate); dayStart.setUTCHours(0,0,0,0)
from the create handler. -/
def dayStartOf (t : Int) : Int := msPerDay * dayIdx t

/-- JavaScript truthiness of an optional string request field: absent
(undefined) and the empty string are falsy, every other string is truthy. -/
def truthy : Option String → Bool
  | none => false
  | some s => s != ""

/-- One stored appointment record, with the fields the create handler
persists.  medicalReport distinguishes a never-set field (none), an
explicit null (some none) and a string value (some (some r)). -/
structure Appointment where
  employeeCode : String
  patientName : String
  patientAge : Option String
  patientGender : Option String
  patientRelation : Option String
  patientPhone : Option String
  patientAddress : Option String
  appointmentDate : Int
  appointmentTime : String
  doctorCode : String
  notes : Option String
  tokenNumber : Int
  status : String
  medicalReport : Option (Option String)
deriving DecidableEq

/-- The appointment collection held by the persistence collaborator:
documents paired with their ids, in insertion order, plus the next fresh
id. -/
structure Store where
  appts : List (Nat × Appointment)
  nextId : Nat
deriving DecidableEq

/-- The empty collection. -/
def Store.empty : Store := ⟨[], 0⟩

/-- The documents of the store without their ids, in insertion order. -/
def apptsOf (s : Store) : List Appointment := s.appts.map (fun p => p.2)

/-- Insert a new document, assigning it the next fresh id (models
newAppointment.save()). -/
def Store.insert (s : Store) (a : Appointment) : Store :=
  ⟨s.appts ++ [(s.nextId, a)], s.nextId + 1⟩

/-- Appointment.findById: the first document with the given id. -/
def findById (s : Store) (id : Nat) : Option Appointment :=
  (s.appts.find? (fun p => p.1 == id)).map (fun p => p.2)

/-- Replace the document at the given id (the write half of
findByIdAndUpdate). -/
def setById (s : Store) (id : Nat) (b : Appointment) : Store :=
  ⟨s.appts.map (fun p => if p.1 == id then (p.1, b) else p), s.nextId⟩

/-- Remove the document at the given id (findByIdAndDelete). -/
def removeById (s : Store) (id : Nat) : Store :=
  ⟨s.appts.filter (fun p => p.1 != id), s.nextId⟩

/-- The filter of the token-assignment query: same doctorCode, and
appointmentDate inside the half-open window [lo, hi). -/
def matchesKey (d : String) (lo hi : Int) (a : Appointment) : Bool :=
  a.doctorCode == d && decide (lo ≤ a.appointmentDate) && decide (a.appointmentDate < hi)

/-- Token numbers of the stored appointments matching the window query,
in insertion order. -/
def windowTokens (s : Store) (d : String) (lo hi : Int) : List Int :=
  ((apptsOf s).filter (matchesKey d lo hi)).map (fun a => a.tokenNumber)

/-- Token numbers stored for the key (doctor d, calendar day k), in
creation order. -/
def keyTokens (s : Store) (d : String) (k : Int) : List Int :=
  windowTokens s d (msPerDay * k) (msPerDay * k + msPerDay)

/-- A document of maximal tokenNumber in the list, preferring the earlier
one on ties; none on the empty list.  Models findOne with a descending
sort on tokenNumber. -/
def pickMaxToken : List Appointment → Option Appointment
  | [] => none
  | a :: rest =>
    match pickMaxToken rest with
    | none => some a
    | some b => if a.tokenNumber < b.tokenNumber then some b else some a

/-- Appointment.findOne({doctorCode, appointmentDate in [lo, hi)}) with
sort({tokenNumber: -1}): a stored document of maximal token in the
window, if any. -/
def findOneMaxToken (s : Store) (d : String) (lo hi : Int) : Option Appointment :=
  pickMaxToken ((apptsOf s).filter (matchesKey d lo hi))

/-- The body of a create request.  appointmentDate is the parsed request
date (none when the field is absent or empty, hence falsy). -/
structure CreateRequest where
  employeeCode : Option String
  patientName : Option String
  patientAge : Option String
  patientGender : Option String
  patientRelation : Option String
  patientPhone : Option String
  patientAddress : Option String
  appointmentDate : Option Int
  appointmentTime : Option String
  doctorCode : Option String
  notes : Option String
deriving DecidableEq

/-- The mandatory-field check of the create handler:
!employeeCode || !patientName || !appointmentDate || !appointmentTime ||
!doctorCode, negated. -/
def validCreate (r : CreateRequest) : Bool :=
  truthy r.employeeCode && truthy r.patientName && r.appointmentDate.isSome &&
    truthy r.appointmentTime && truthy r.doctorCode

/-- The document the create handler persists.  The request fields are
passed through unchanged; the stored appointmentDate is the raw request
date t.  Modelled from the spec: the status default of the missing
Appointment.model.js schema is the initial lifecycle state Pending, and
medicalReport starts unset. -/
def mkAppointment (r : CreateRequest) (t : Int) (tok : Int) : Appointment :=
  { employeeCode := r.employeeCode.getD ""
    patientName := r.patientName.getD ""
    patientAge := r.patientAge
    patientGender := r.patientGender
    patientRelation := r.patientRelation
    patientPhone := r.patientPhone
    patientAddress := r.patientAddress
    appointmentDate := t
    appointmentTime := r.appointmentTime.getD ""
    doctorCode := r.doctorCode.getD ""
    notes := r.notes
    tokenNumber := tok
    status := "Pending"
    medicalReport := none }

/-- The read step of the create handler: query the maximal token for the
doctor over the normalized day window of t and add one, defaulting to 1
when no appointment exists for that doctor and day. -/
def createRead (s : Store) (d : String) (t : Int) : Int :=
  match findOneMaxToken s d (dayStartOf t) (dayStartOf t + msPerDay) with
  | none => 1
  | some a => a.tokenNumber + 1

/-- The write step of the create handler: persist the new document with
the computed token number. -/
def createWrite (s : Store) (r : CreateRequest) (t : Int) (tok : Int) : Store :=
  s.insert (mkAppointment r t tok)

/-- Outcome of the create handler. -/
inductive CreateResult
  | invalidRequest
  | created (a : Appointment)
deriving DecidableEq

/-- The create handler: reject when a mandatory field is falsy (before
any query), otherwise run the read step then the write step.  The third
component counts the persistence queries issued on the path taken. -/
def createAppointment (s : Store) (r : CreateRequest) : CreateResult × Store × Nat :=
  match r.appointmentDate with
  | none => (.invalidRequest, s, 0)
  | some t =>
    if validCreate r then
      let tok := createRead s (r.doctorCode.getD "") t
      (.created (mkAppointment r t tok), createWrite s r t tok, 1)
    else (.invalidRequest, s, 0)

/-- Run a list of create requests one after another, keeping only the
store. -/
def runCreates (s : Store) (reqs : List CreateRequest) : Store :=
  reqs.foldl (fun acc r => (createAppointment acc r).2.1) s

/-- Body of an update request: optional status string and optional
medicalReport field; some none models an explicit JSON null report. -/
structure UpdateReq where
  status : Option String
  medicalReport : Option (Option String)
deriving DecidableEq

/-- Outcome of the update handler. -/
inductive UpdateResult
  | noData
  | notFound
  | updated (a : Appointment)
deriving DecidableEq

/-- The $set document built by the update handler, applied to a stored
document: status is written only when truthy, medicalReport whenever it
is present at all (anything other than undefined). -/
def updateFieldsApply (u : UpdateReq) (a : Appointment) : Appointment :=
  let a1 := if truthy u.status then { a with status := u.status.getD a.status } else a
  match u.medicalReport with
  | some v => { a1 with medicalReport := some v }
  | none => a1

/-- The update handler: reject when neither field is supplied
(!status && medicalReport === undefined), otherwise
findByIdAndUpdate with the $set document, returning the updated
document or a not-found outcome. -/
def updateAppointment (s : Store) (id : Nat) (u : UpdateReq) : UpdateResult × Store :=
  if !truthy u.status && u.medicalReport.isNone then (.noData, s)
  else
    match findById s id with
    | none => (.notFound, s)
    | some a =>
      let b := updateFieldsApply u a
      (.updated b, setById s id b)

/-- Outcome of the delete handler. -/
inductive DeleteResult
  | notFound
  | forbidden
  | deleted
deriving DecidableEq

/-- The delete handler: 404 when the id is unknown, 403 when the stored
status differs from the literal Cancelled, and only otherwise
findByIdAndDelete. -/
def deleteAppointment (s : Store) (id : Nat) : DeleteResult × Store :=
  match findById s id with
  | none => (.notFound, s)
  | some a =>
    if a.status == "Cancelled" then (.deleted, removeById s id)
    else (.forbidden, s)

/-- The whitespace set of String.prototype.trim: the ECMAScript
WhiteSpace characters (tab, vertical tab, form feed, space, no-break
space, zero-width no-break space and the Unicode space separators)
together with the four line terminators. -/
def isJsWhitespace (c : Char) : Bool :=
  c == ' ' || c == '\t' || c == '\n' || c == '\r' ||
    c == '\x0b' || c == '\x0c' || c == '\u00A0' || c == '\uFEFF' ||
    c == '\u1680' || (decide (0x2000 ≤ c.toNat) && decide (c.toNat ≤ 0x200A)) ||
    c == '\u2028' || c == '\u2029' || c == '\u202F' || c == '\u205F' || c == '\u3000'

/-- Whitespace trimming of a string, acting on its character list:
leading and trailing trim-whitespace characters are removed, exactly as
String.prototype.trim does on the query parameters.  Written over the
character list so that it is kernel-computable. -/
def strTrim (s : String) : String :=
  ⟨((s.data.dropWhile isJsWhitespace).reverse.dropWhile isJsWhitespace).reverse⟩

/-- Lexicographic strict comparison of character lists, the order string
comparison in the persistence collaborator uses for sort keys. -/
def charListLt : List Char → List Char → Bool
  | [], [] => false
  | [], _ :: _ => true
  | _ :: _, [] => false
  | c :: cs, d :: ds => decide (c < d) || (c == d && charListLt cs ds)

/-- Strict order on time-of-day strings. -/
def timeLt (a b : String) : Bool := charListLt a.data b.data

/-- The three-key comparison of sort({appointmentDate: 1,
appointmentTime: 1, tokenNumber: 1}): lexicographic on
(appointmentDate, appointmentTime, tokenNumber), all ascending. -/
def apptLeB (a b : Appointment) : Bool :=
  decide (a.appointmentDate < b.appointmentDate) ||
    (a.appointmentDate == b.appointmentDate &&
      (timeLt a.appointmentTime b.appointmentTime ||
        (a.appointmentTime == b.appointmentTime && decide (a.tokenNumber ≤ b.tokenNumber))))

instance : DecidableRel (fun a b : Appointment => apptLeB a b = true) :=
  fun _ _ => inferInstance

/-- Sorting on the three ascending keys, as applied by the two list
queries of the backend. -/
def sortAppts (l : List Appointment) : List Appointment :=
  List.insertionSort (fun a b => apptLeB a b = true) l

/-- The ECMAScript line terminators, which the dot of a regular
expression without the dotAll flag never matches. -/
def isLineTerminator (c : Char) : Bool :=
  c == '\n' || c == '\r' || c == '\u2028' || c == '\u2029'

/-- Character match of the anchored case-insensitive pattern the
employee-listing handler builds, on the modeled fragment: a dot in the
pattern matches any character other than a line terminator, and any
other pattern character matches a stored character exactly up to ASCII
case folding.  For an ASCII pattern character this is precisely the
canonicalization the i flag performs: ASCII characters fold to each
other exactly when they differ only in case, and a character beyond
ASCII never canonicalizes to an ASCII one. -/
def patCharMatch (p c : Char) : Bool :=
  (p == '.' && !isLineTerminator c) || p.toLower == c.toLower

/-- Whole-string match of an anchored pattern against a string,
character by character.  For patterns inside the modeled fragment
(dotOnlyPattern below) and names of Basic-Multilingual-Plane
characters, this is exactly new RegExp(anchored pattern, i flag).test. -/
def patMatch : List Char → List Char → Bool
  | [], [] => true
  | [], _ :: _ => false
  | _ :: _, [] => false
  | p :: ps, c :: cs => patCharMatch p c && patMatch ps cs

/-- The patientName test of the employee-listing handler on a stored
name. -/
def nameMatches (pat s : String) : Bool := patMatch pat.data s.data

/-- The regular-expression syntax characters of ECMAScript patterns:
inside new RegExp these are not literal characters. -/
def isRegexMeta (c : Char) : Bool :=
  c == '^' || c == '$' || c == '\\' || c == '.' || c == '*' || c == '+' ||
    c == '?' || c == '(' || c == ')' || c == '[' || c == ']' ||
    c == '\x7b' || c == '\x7d' || c == '|'

/-- The fragment of query patterns on which the embedding models the
handler's unescaped regular expression exactly: every character is
ASCII and is either the dot wildcard or not a regular-expression syntax
character.  Such a pattern always parses, and anchored between the
caret and dollar the handler adds, it matches character by character. -/
def dotOnlyPattern (pat : String) : Bool :=
  pat.data.all (fun c => decide (c.toNat ≤ 127) && (c == '.' || !isRegexMeta c))

/-- All stored patient names consist of Basic-Multilingual-Plane
characters.  Each such character is a single UTF-16 code unit, so the
per-character view of the pattern match agrees with the code-unit view
the JavaScript engine takes. -/
def bmpNames (s : Store) : Bool :=
  (apptsOf s).all (fun a => a.patientName.data.all (fun c => decide (c.toNat < 65536)))

/-- Outcome of the two listing handlers.  beyondModel marks inputs the
embedding refuses to predict rather than guess about: queries whose
regular expression uses syntax outside the modeled dot-only fragment
(on those the real handler runs full ECMAScript semantics, or answers
500 when new RegExp throws on a malformed pattern), and stores holding
patient names beyond the Basic Multilingual Plane. -/
inductive ListResult
  | missingParams
  | ok (l : List Appointment)
  | beyondModel
deriving DecidableEq

/-- The employee-dashboard listing handler: 400 before any query when
either query parameter is falsy; otherwise find the documents whose
employeeCode equals the trimmed query and whose patientName matches the
anchored case-insensitive regular expression built by new RegExp from
the unescaped trimmed query, sorted on the three ascending keys.  The
match is modeled exactly on dot-only patterns over BMP names and
reported as beyondModel otherwise.  The second component counts the
persistence queries issued on the modeled paths. -/
def listByEmployeeAndPatient (s : Store) (employeeCode patientName : Option String) :
    ListResult × Nat :=
  if !truthy employeeCode || !truthy patientName then (.missingParams, 0)
  else
    let ec := strTrim (employeeCode.getD "")
    let pat := strTrim (patientName.getD "")
    if dotOnlyPattern pat && bmpNames s then
      let filtered := (apptsOf s).filter
        (fun a => a.employeeCode == ec && nameMatches pat a.patientName)
      (.ok (sortAppts filtered), 1)
    else (.beyondModel, 0)

/-- Case-insensitive whole-string equality of two strings (ASCII
folding). -/
def ciEq (a b : String) : Bool := a.data.map Char.toLower == b.data.map Char.toLower

/-- The employee-dashboard listing operation as the specification words
it, for comparison with listByEmployeeAndPatient: the stored patientName
must be equal, case-insensitively and as a whole string, to the trimmed
query, rather than match a regular expression built from it. -/
def specListByEmployeeAndPatient (s : Store) (employeeCode patientName : Option String) :
    ListResult × Nat :=
  if !truthy employeeCode || !truthy patientName then (.missingParams, 0)
  else
    let ec := strTrim (employeeCode.getD "")
    let pat := strTrim (patientName.getD "")
    let filtered := (apptsOf s).filter
      (fun a => a.employeeCode == ec && ciEq pat a.patientName)
    (.ok (sortAppts filtered), 1)

/-! ### Arithmetic of the day window -/

theorem msPerDay_pos : (0 : Int) < msPerDay := by decide

theorem dayIdx_eq_iff (t k : Int) :
    dayIdx t = k ↔ msPerDay * k ≤ t ∧ t < msPerDay * k + msPerDay := by
  have h1 := Int.fdiv_add_fmod t msPerDay
  have h2 := Int.fmod_nonneg' t msPerDay_pos
  have h3 := Int.fmod_lt_of_pos t msPerDay_pos
  unfold dayIdx
  unfold msPerDay at h1 h2 h3 ⊢
  omega

theorem matchesKey_day_iff (d : String) (k : Int) (a : Appointment) :
    matchesKey d (msPerDay * k) (msPerDay * k + msPerDay) a = true ↔
      a.doctorCode = d ∧ dayIdx a.appointmentDate = k := by
  simp only [matchesKey, Bool.and_eq_true, beq_iff_eq, decide_eq_true_eq]
  constructor
  · rintro ⟨⟨h1, h2⟩, h3⟩
    exact ⟨h1, (dayIdx_eq_iff _ _).2 ⟨h2, h3⟩⟩
  · rintro ⟨h1, h2⟩
    have h3 := (dayIdx_eq_iff _ _).1 h2
    exact ⟨⟨h1, h3.1⟩, h3.2⟩

/-! ### The maximum token of a window -/

/-- Maximum of a list of integers, none on the empty list.  This is the
specification-side notion "the maximum tokenNumber among the stored
appointments", to be compared with what the descending-sort findOne of
the create handler produces. -/
def maxOrNone : List Int → Option Int
  | [] => none
  | x :: xs =>
    match maxOrNone xs with
    | none => some x
    | some m => some (max x m)

theorem pickMaxToken_eq_none {l : List Appointment} :
    pickMaxToken l = none ↔ l = [] := by
  cases l with
  | nil => simp [pickMaxToken]
  | cons a rest =>
    simp only [pickMaxToken]
    cases h : pickMaxToken rest <;> simp
    split <;> simp

theorem maxOrNone_eq_none {l : List Int} : maxOrNone l = none ↔ l = [] := by
  cases l with
  | nil => simp [maxOrNone]
  | cons x xs =>
    simp only [maxOrNone]
    cases h : maxOrNone xs <;> simp

theorem pickMaxToken_some_max {l : List Appointment} {a : Appointment}
    (h : pickMaxToken l = some a) :
    maxOrNone (l.map (fun x => x.tokenNumber)) = some a.tokenNumber := by
  induction l generalizing a with
  | nil => simp [pickMaxToken] at h
  | cons b rest ih =>
    simp only [pickMaxToken] at h
    cases hr : pickMaxToken rest with
    | none =>
      rw [hr] at h
      dsimp only at h
      injection h with h
      subst h
      have hrest : rest = [] := pickMaxToken_eq_none.1 hr
      subst hrest
      simp [maxOrNone]
    | some c =>
      rw [hr] at h
      dsimp only at h
      have hc := ih hr
      simp only [List.map_cons, maxOrNone, hc]
      by_cases hlt : b.tokenNumber < c.tokenNumber
      · rw [if_pos hlt] at h
        injection h with h
        subst h
        rw [max_eq_right (le_of_lt hlt)]
      · rw [if_neg hlt] at h
        injection h with h
        subst h
        rw [max_eq_left (le_of_not_lt hlt)]

theorem createRead_eq (s : Store) (d : String) (t : Int) :
    createRead s d t =
      match maxOrNone (windowTokens s d (dayStartOf t) (dayStartOf t + msPerDay)) with
      | none => 1
      | some m => m + 1 := by
  unfold createRead findOneMaxToken windowTokens
  cases h : pickMaxToken ((apptsOf s).filter (matchesKey d (dayStartOf t) (dayStartOf t + msPerDay))) with
  | none =>
    rw [pickMaxToken_eq_none.1 h]
    simp [maxOrNone]
  | some a =>
    rw [pickMaxToken_some_max h]

theorem maxOrNone_eq_some_iff {l : List Int} {m : Int} :
    maxOrNone l = some m ↔ m ∈ l ∧ ∀ x ∈ l, x ≤ m := by
  induction l generalizing m with
  | nil => simp [maxOrNone]
  | cons x xs ih =>
    simp only [maxOrNone]
    cases h : maxOrNone xs with
    | none =>
      have hnil : xs = [] := maxOrNone_eq_none.1 h
      subst hnil
      dsimp only
      constructor
      · intro hm
        injection hm with hm
        subst hm
        refine ⟨List.mem_singleton_self _, ?_⟩
        intro y hy
        rw [List.mem_singleton] at hy
        exact le_of_eq hy
      · rintro ⟨hm, _⟩
        rw [List.mem_singleton] at hm
        subst hm
        rfl
    | some mx =>
      have hmx := ih.1 h
      dsimp only
      constructor
      · intro hm
        injection hm with hm
        constructor
        · rcases max_choice x mx with hc | hc
          · rw [← hm, hc]
            exact List.mem_cons_self _ _
          · rw [← hm, hc]
            exact List.mem_cons_of_mem _ hmx.1
        · intro y hy
          rcases List.mem_cons.1 hy with rfl | hy2
          · rw [← hm]
            exact le_max_left _ _
          · rw [← hm]
            exact le_trans (hmx.2 y hy2) (le_max_right _ _)
      · rintro ⟨hm, hb⟩
        have hxle : x ≤ m := hb x (List.mem_cons_self _ _)
        have hmxle : mx ≤ m := hb mx (List.mem_cons_of_mem _ hmx.1)
        have hge : m ≤ max x mx := by
          rcases List.mem_cons.1 hm with rfl | hm2
          · exact le_max_left _ _
          · exact le_trans (hmx.2 m hm2) (le_max_right _ _)
        rw [le_antisymm (max_le hxle hmxle) hge]

/-! ### Effect of an insert on window and key queries -/

theorem apptsOf_insert (s : Store) (a : Appointment) :
    apptsOf (s.insert a) = apptsOf s ++ [a] := by
  simp [apptsOf, Store.insert]

theorem windowTokens_insert (s : Store) (a : Appointment) (d : String) (lo hi : Int) :
    windowTokens (s.insert a) d lo hi =
      windowTokens s d lo hi ++ (if matchesKey d lo hi a then [a.tokenNumber] else []) := by
  unfold windowTokens
  rw [apptsOf_insert, List.filter_append, List.map_append]
  by_cases h : matchesKey d lo hi a = true
  · simp [h]
  · simp [List.filter_cons, h]

theorem keyTokens_insert (s : Store) (a : Appointment) (d : String) (k : Int) :
    keyTokens (s.insert a) d k =
      keyTokens s d k ++
        (if a.doctorCode = d ∧ dayIdx a.appointmentDate = k then [a.tokenNumber] else []) := by
  unfold keyTokens
  rw [windowTokens_insert]
  by_cases h : a.doctorCode = d ∧ dayIdx a.appointmentDate = k
  · rw [if_pos ((matchesKey_day_iff d k a).2 h), if_pos h]
  · rw [if_neg h, if_neg ?_]
    intro hc
    exact h ((matchesKey_day_iff d k a).1 hc)

theorem windowTokens_day_eq_keyTokens (s : Store) (d : String) (t : Int) :
    windowTokens s d (dayStartOf t) (dayStartOf t + msPerDay) = keyTokens s d (dayIdx t) := rfl

/-! ### Lookup, update and removal by id -/

theorem findById_setById (s : Store) (id j : Nat) (b : Appointment) :
    findById (setById s id b) j =
      if j = id then (findById s id).map (fun _ => b) else findById s j := by
  obtain ⟨l, nid⟩ := s
  unfold findById setById
  dsimp only
  induction l with
  | nil => simp
  | cons p ps ih =>
    simp only [List.map_cons, List.find?_cons]
    by_cases hpid : p.1 = id
    · simp only [show (p.1 == id) = true by simp [hpid], eq_self_iff_true, if_true]
      by_cases hj : j = id
      · subst hj
        simp only [show (p.1 == j) = true by simp [hpid], if_pos rfl]
        simp
      · have hpj : p.1 ≠ j := by omega
        simp only [show (p.1 == j) = false by simp [hpj], Bool.false_eq_true, if_false,
          if_neg hj] at ih ⊢
        exact ih
    · simp only [show (p.1 == id) = false by simp [hpid], Bool.false_eq_true, if_false]
      by_cases hj : j = id
      · subst hj
        have hpj : p.1 ≠ j := hpid
        simp only [show (p.1 == j) = false by simp [hpj], Bool.false_eq_true, if_false,
          if_pos rfl] at ih ⊢
        exact ih
      · by_cases hpj : p.1 = j
        · simp only [show (p.1 == j) = true by simp [hpj], if_neg hj]
        · simp only [show (p.1 == j) = false by simp [hpj], Bool.false_eq_true, if_false,
            if_neg hj] at ih ⊢
          exact ih

theorem findById_removeById (s : Store) (id j : Nat) :
    findById (removeById s id) j = if j = id then none else findById s j := by
  obtain ⟨l, nid⟩ := s
  unfold findById removeById
  dsimp only
  induction l with
  | nil => simp
  | cons p ps ih =>
    by_cases hp : p.1 = id
    · have hpb : (p.1 != id) = false := by
        simp [hp]
      rw [List.filter_cons, hpb]
      simp only [Bool.false_eq_true, if_false]
      by_cases hj : j = id
      · simp only [if_pos hj] at ih ⊢
        exact ih
      · have hpj : (p.1 == j) = false := by
          simp only [beq_eq_false_iff_ne, ne_eq]
          omega
        rw [List.find?_cons, hpj]
        simp only [Bool.false_eq_true, if_false]
        simpa [hj] using ih
    · have hpb : (p.1 != id) = true := by
        simp [hp]
      rw [List.filter_cons, hpb]
      simp only [if_pos]
      by_cases hpj : p.1 = j
      · have hj : ¬ j = id := by
          omega
        subst hpj
        simp [List.find?_cons, if_neg hj]
      · have hpj2 : (p.1 == j) = false := by
          simp only [beq_eq_false_iff_ne, ne_eq]
          exact hpj
        rw [List.find?_cons, hpj2, List.find?_cons, hpj2]
        simp only [Bool.false_eq_true, if_false]
        exact ih

/-! ### The update document touches only status and medicalReport -/

theorem updateFieldsApply_frame (u : UpdateReq) (a : Appointment) :
    (updateFieldsApply u a).employeeCode = a.employeeCode ∧
    (updateFieldsApply u a).patientName = a.patientName ∧
    (updateFieldsApply u a).patientAge = a.patientAge ∧
    (updateFieldsApply u a).patientGender = a.patientGender ∧
    (updateFieldsApply u a).patientRelation = a.patientRelation ∧
    (updateFieldsApply u a).patientPhone = a.patientPhone ∧
    (updateFieldsApply u a).patientAddress = a.patientAddress ∧
    (updateFieldsApply u a).appointmentDate = a.appointmentDate ∧
    (updateFieldsApply u a).appointmentTime = a.appointmentTime ∧
    (updateFieldsApply u a).doctorCode = a.doctorCode ∧
    (updateFieldsApply u a).notes = a.notes ∧
    (updateFieldsApply u a).tokenNumber = a.tokenNumber ∧
    (truthy u.status = false → (updateFieldsApply u a).status = a.status) ∧
    (u.medicalReport = none → (updateFieldsApply u a).medicalReport = a.medicalReport) := by
  unfold updateFieldsApply
  cases hm : u.medicalReport <;> by_cases hs : truthy u.status <;> simp [hs]

/-! ### Dense token sequences -/

/-- The list [1, 2, ..., n] as integers: the dense token sequence of
length n, in increasing order. -/
def tokenSeq : Nat → List Int
  | 0 => []
  | n + 1 => tokenSeq n ++ [((n : Int) + 1)]

theorem tokenSeq_length (n : Nat) : (tokenSeq n).length = n := by
  induction n with
  | zero => rfl
  | succ n ih => simp [tokenSeq, ih]

theorem mem_tokenSeq {x : Int} {n : Nat} : x ∈ tokenSeq n ↔ 1 ≤ x ∧ x ≤ (n : Int) := by
  induction n with
  | zero =>
    simp [tokenSeq]
    omega
  | succ n ih =>
    simp only [tokenSeq, List.mem_append, List.mem_singleton, ih]
    push_cast
    omega

theorem maxOrNone_tokenSeq (n : Nat) :
    maxOrNone (tokenSeq n) = if n = 0 then none else some (n : Int) := by
  cases n with
  | zero => rfl
  | succ n =>
    rw [if_neg (Nat.succ_ne_zero n)]
    rw [maxOrNone_eq_some_iff]
    constructor
    · rw [mem_tokenSeq]
      push_cast
      omega
    · intro x hx
      rw [mem_tokenSeq] at hx
      push_cast at hx ⊢
      omega

/-! ### The create handler on a valid request -/

theorem validCreate_date {r : CreateRequest} (hv : validCreate r = true) :
    ∃ t, r.appointmentDate = some t := by
  unfold validCreate at hv
  simp only [Bool.and_eq_true, Option.isSome_iff_exists] at hv
  exact hv.1.1.2

theorem createAppointment_valid (s : Store) (r : CreateRequest) (t : Int)
    (hd : r.appointmentDate = some t) (hv : validCreate r = true) :
    createAppointment s r =
      (.created (mkAppointment r t (createRead s (r.doctorCode.getD "") t)),
        createWrite s r t (createRead s (r.doctorCode.getD "") t), 1) := by
  unfold createAppointment
  rw [hd]
  dsimp only
  rw [if_pos hv]

theorem createAppointment_invalid (s : Store) (r : CreateRequest)
    (hv : validCreate r = false) :
    createAppointment s r = (.invalidRequest, s, 0) := by
  unfold createAppointment
  cases hd : r.appointmentDate with
  | none => rfl
  | some t =>
    dsimp only
    rw [if_neg ?_]
    rw [hv]
    intro hc
    cases hc

/-! ### Density is established by creation and read back by the token query -/

/-- Density invariant: every (doctor, day) key of the store holds exactly
the dense token sequence 1..N for its own length, in creation order. -/
def DenseTokens (s : Store) : Prop :=
  ∀ d k, keyTokens s d k = tokenSeq (keyTokens s d k).length

theorem denseTokens_empty : DenseTokens Store.empty := by
  intro d k
  rfl

theorem createRead_of_dense (s : Store) (d : String) (t : Int)
    (hdense : keyTokens s d (dayIdx t) = tokenSeq (keyTokens s d (dayIdx t)).length) :
    createRead s d t = ((keyTokens s d (dayIdx t)).length : Int) + 1 := by
  have h1 : createRead s d t =
      match maxOrNone (keyTokens s d (dayIdx t)) with
      | none => 1
      | some m => m + 1 := by
    rw [createRead_eq, windowTokens_day_eq_keyTokens]
  rw [h1, hdense, maxOrNone_tokenSeq, tokenSeq_length]
  generalize (keyTokens s d (dayIdx t)).length = n
  cases n with
  | zero => simp
  | succ m => simp

theorem denseTokens_create (s : Store) (r : CreateRequest)
    (hv : validCreate r = true) (hdense : DenseTokens s) :
    DenseTokens (createAppointment s r).2.1 := by
  obtain ⟨t, hd⟩ := validCreate_date hv
  rw [createAppointment_valid s r t hd hv]
  dsimp only
  intro d k
  unfold createWrite
  rw [keyTokens_insert]
  by_cases hk : r.doctorCode.getD "" = d ∧ dayIdx t = k
  · obtain ⟨hk1, hk2⟩ := hk
    rw [if_pos ?side]
    case side =>
      constructor
      · exact hk1
      · exact hk2
    rw [← hk1, ← hk2]
    have hstep := createRead_of_dense s (r.doctorCode.getD "") t
      (hdense (r.doctorCode.getD "") (dayIdx t))
    have hmk : (mkAppointment r t (createRead s (r.doctorCode.getD "") t)).tokenNumber =
        createRead s (r.doctorCode.getD "") t := rfl
    rw [hmk, hstep, hdense (r.doctorCode.getD "") (dayIdx t)]
    rw [tokenSeq_length, List.length_append, tokenSeq_length, List.length_singleton]
    rfl
  · rw [if_neg ?side2]
    case side2 =>
      intro hc
      exact hk hc
    rw [List.append_nil]
    exact hdense d k

theorem runCreates_cons (s : Store) (r : CreateRequest) (rest : List CreateRequest) :
    runCreates s (r :: rest) = runCreates (createAppointment s r).2.1 rest := rfl

theorem runCreates_dense (reqs : List CreateRequest) :
    ∀ s, DenseTokens s → (∀ r ∈ reqs, validCreate r = true) →
      DenseTokens (runCreates s reqs) := by
  induction reqs with
  | nil =>
    intro s hs _
    exact hs
  | cons r rest ih =>
    intro s hs hvalid
    rw [runCreates_cons]
    exact ih _ (denseTokens_create s r (hvalid r (List.mem_cons_self _ _)) hs)
      (fun x hx => hvalid x (List.mem_cons_of_mem _ hx))

/-! ### The three-key sort order is total and transitive -/

theorem charListLt_trans {x y z : List Char} (h1 : charListLt x y = true)
    (h2 : charListLt y z = true) : charListLt x z = true := by
  induction x generalizing y z with
  | nil =>
    cases z with
    | nil =>
      cases y with
      | nil => exact h2
      | cons d ds => simp [charListLt] at h2
    | cons e es => simp [charListLt]
  | cons c cs ih =>
    cases y with
    | nil => simp [charListLt] at h1
    | cons d ds =>
      cases z with
      | nil => simp [charListLt] at h2
      | cons e es =>
        simp only [charListLt, Bool.or_eq_true, Bool.and_eq_true, decide_eq_true_eq,
          beq_iff_eq] at h1 h2 ⊢
        rcases h1 with h1 | ⟨h1e, h1r⟩
        · rcases h2 with h2 | ⟨h2e, h2r⟩
          · exact Or.inl (lt_trans h1 h2)
          · subst h2e
            exact Or.inl h1
        · subst h1e
          rcases h2 with h2 | ⟨h2e, h2r⟩
          · exact Or.inl h2
          · subst h2e
            exact Or.inr ⟨rfl, ih h1r h2r⟩

theorem charListLt_conn {x y : List Char} (h1 : charListLt x y = false)
    (h2 : charListLt y x = false) : x = y := by
  induction x generalizing y with
  | nil =>
    cases y with
    | nil => rfl
    | cons d ds => simp [charListLt] at h1
  | cons c cs ih =>
    cases y with
    | nil => simp [charListLt] at h2
    | cons d ds =>
      simp only [charListLt, Bool.or_eq_false_iff, Bool.and_eq_false_iff,
        decide_eq_false_iff_not, beq_eq_false_iff_ne, ne_eq] at h1 h2
      have hcd : c = d := by
        rcases h1 with ⟨h1a, h1b⟩
        rcases h2 with ⟨h2a, h2b⟩
        exact le_antisymm (le_of_not_lt h2a) (le_of_not_lt h1a)
      subst hcd
      rcases h1 with ⟨h1a, h1b⟩
      rcases h2 with ⟨h2a, h2b⟩
      rcases h1b with h1b | h1b
      · exact absurd rfl h1b
      · rcases h2b with h2b | h2b
        · exact absurd rfl h2b
        · rw [ih h1b h2b]

theorem apptLeB_trans {a b c : Appointment} (h1 : apptLeB a b = true)
    (h2 : apptLeB b c = true) : apptLeB a c = true := by
  simp only [apptLeB, timeLt, Bool.or_eq_true, Bool.and_eq_true, decide_eq_true_eq,
    beq_iff_eq] at h1 h2 ⊢
  rcases h1 with h1 | ⟨h1d, h1r⟩
  · rcases h2 with h2 | ⟨h2d, h2r⟩
    · exact Or.inl (lt_trans h1 h2)
    · rw [← h2d]
      exact Or.inl h1
  · rw [h1d]
    rcases h2 with h2 | ⟨h2d, h2r⟩
    · exact Or.inl h2
    · refine Or.inr ⟨h2d, ?_⟩
      rcases h1r with h1r | ⟨h1t, h1n⟩
      · rcases h2r with h2r | ⟨h2t, h2n⟩
        · exact Or.inl (charListLt_trans h1r h2r)
        · rw [← String.data_eq_of_eq h2t] at *
          exact Or.inl h1r
      · rw [h1t]
        rcases h2r with h2r | ⟨h2t, h2n⟩
        · exact Or.inl h2r
        · exact Or.inr ⟨h2t, le_trans h1n h2n⟩

theorem apptLeB_total (a b : Appointment) : apptLeB a b = true ∨ apptLeB b a = true := by
  simp only [apptLeB, timeLt, Bool.or_eq_true, Bool.and_eq_true, decide_eq_true_eq,
    beq_iff_eq]
  rcases lt_trichotomy a.appointmentDate b.appointmentDate with hd | hd | hd
  · exact Or.inl (Or.inl hd)
  · cases ht1 : charListLt a.appointmentTime.data b.appointmentTime.data with
    | true => exact Or.inl (Or.inr ⟨hd, Or.inl rfl⟩)
    | false =>
      cases ht2 : charListLt b.appointmentTime.data a.appointmentTime.data with
      | true => exact Or.inr (Or.inr ⟨hd.symm, Or.inl rfl⟩)
      | false =>
        have hteq : a.appointmentTime = b.appointmentTime := by
          apply String.ext
          exact charListLt_conn ht1 ht2
        rcases le_total a.tokenNumber b.tokenNumber with hn | hn
        · exact Or.inl (Or.inr ⟨hd, Or.inr ⟨hteq, hn⟩⟩)
        · exact Or.inr (Or.inr ⟨hd.symm, Or.inr ⟨hteq.symm, hn⟩⟩)
  · exact Or.inr (Or.inl hd)

instance : IsTrans Appointment (fun a b => apptLeB a b = true) :=
  ⟨fun _ _ _ => apptLeB_trans⟩

instance : IsTotal Appointment (fun a b => apptLeB a b = true) :=
  ⟨apptLeB_total⟩

theorem sortAppts_sorted (l : List Appointment) :
    List.Sorted (fun a b => apptLeB a b = true) (sortAppts l) :=
  List.sorted_insertionSort (fun a b => apptLeB a b = true) l

theorem sortAppts_perm (l : List Appointment) : (sortAppts l).Perm l :=
  List.perm_insertionSort (fun a b => apptLeB a b = true) l

/-! ### Dot-free patterns match exactly the case-insensitive equal strings -/

theorem patMatch_no_dot {ps cs : List Char} (h : ∀ p ∈ ps, p ≠ '.') :
    patMatch ps cs = true ↔ ps.map Char.toLower = cs.map Char.toLower := by
  induction ps generalizing cs with
  | nil => cases cs <;> simp [patMatch]
  | cons p pr ih =>
    cases cs with
    | nil => simp [patMatch]
    | cons c cr =>
      have hp : p ≠ '.' := h p (List.mem_cons_self _ _)
      simp only [patMatch, patCharMatch, Bool.and_eq_true, Bool.or_eq_true, beq_iff_eq,
        List.map_cons, List.cons.injEq]
      constructor
      · rintro ⟨⟨hpc, -⟩ | hpc, hrest⟩
        · exact absurd hpc hp
        · exact ⟨hpc, (ih (fun q hq => h q (List.mem_cons_of_mem _ hq))).1 hrest⟩
      · rintro ⟨h1, h2⟩
        exact ⟨Or.inr h1, (ih (fun q hq => h q (List.mem_cons_of_mem _ hq))).2 h2⟩

/-! ### Concrete example data -/

/-- A fully valid create request: doctor D1, day 0, patient John. -/
def reqA : CreateRequest :=
  { employeeCode := some "E1"
    patientName := some "John"
    patientAge := none
    patientGender := none
    patientRelation := none
    patientPhone := none
    patientAddress := none
    appointmentDate := some 0
    appointmentTime := some "09:00"
    doctorCode := some "D1"
    notes := none }

/-- A second valid request for the same doctor and day. -/
def reqB : CreateRequest :=
  { reqA with patientName := some "Mary", appointmentTime := some "10:00" }

/-- A valid request whose date is one second past UTC midnight, that is,
not itself a day boundary. -/
def reqT : CreateRequest := { reqA with appointmentDate := some 1000 }

/-- A valid request for a different doctor. -/
def reqD2 : CreateRequest := { reqA with doctorCode := some "D2" }

/-- A create request missing its mandatory employeeCode. -/
def reqMissing : CreateRequest := { reqA with employeeCode := none }

/-- A stored appointment for employee E1, patient John. -/
def apptJohn : Appointment :=
  { employeeCode := "E1"
    patientName := "John"
    patientAge := none
    patientGender := none
    patientRelation := none
    patientPhone := none
    patientAddress := none
    appointmentDate := 0
    appointmentTime := "09:00"
    doctorCode := "D1"
    notes := none
    tokenNumber := 1
    status := "Pending"
    medicalReport := none }

/-- The same appointment with status Cancelled. -/
def apptCancelled : Appointment := { apptJohn with status := "Cancelled" }

/-- A store holding only apptJohn, at id 0. -/
def exStore7 : Store := ⟨[(0, apptJohn)], 1⟩

/-- A store holding a cancelled appointment at id 0 and a pending one at
id 1. -/
def exStore4 : Store := ⟨[(0, apptCancelled), (1, apptJohn)], 2⟩

/-! ### Claim theorems -/

/-- C1: for every create request whose mandatory fields are present, the
assigned token number equals the maximum tokenNumber among stored
appointments with the same doctorCode and an appointmentDate inside the
normalized [dayStart, dayEnd) window, plus one; when no such appointment
exists the assigned token number is 1. -/
theorem C1_token_is_max_plus_one (s : Store) (r : CreateRequest) (t : Int)
    (hd : r.appointmentDate = some t) (hv : validCreate r = true) :
    ∃ a, (createAppointment s r).1 = CreateResult.created a ∧
      a.tokenNumber =
        (match maxOrNone (windowTokens s (r.doctorCode.getD "")
            (dayStartOf t) (dayStartOf t + msPerDay)) with
          | none => 1
          | some m => m + 1) := by
  refine ⟨mkAppointment r t (createRead s (r.doctorCode.getD "") t), ?_, ?_⟩
  · rw [createAppointment_valid s r t hd hv]
  · have hmk : (mkAppointment r t (createRead s (r.doctorCode.getD "") t)).tokenNumber =
        createRead s (r.doctorCode.getD "") t := rfl
    rw [hmk, createRead_eq]

/-- C1 witness: a concrete valid request on a store holding token 1 for
the same doctor and day is assigned token 2 = max + 1. -/
theorem C1_token_is_max_plus_one_witness :
    reqB.appointmentDate = some 0 ∧ validCreate reqB = true ∧
      ∃ a, (createAppointment exStore7 reqB).1 = CreateResult.created a ∧
        a.tokenNumber =
          (match maxOrNone (windowTokens exStore7 (reqB.doctorCode.getD "")
              (dayStartOf 0) (dayStartOf 0 + msPerDay)) with
            | none => 1
            | some m => m + 1) :=
  ⟨rfl, by decide, C1_token_is_max_plus_one exStore7 reqB 0 rfl (by decide)⟩

/-- C2 counterexample: after creating two appointments for doctor D1 on
day 0 (tokens 1 and 2), cancelling the first and deleting it, the stored
token numbers for that key are [2], which is not the dense sequence 1..N
of its length: the density invariant is not preserved by the delete
operation. -/
theorem C2_counterexample :
    keyTokens
      (deleteAppointment
        (updateAppointment (runCreates Store.empty [reqA, reqB]) 0
          ⟨some "Cancelled", none⟩).2 0).2 "D1" 0 = [2] ∧
    keyTokens
      (deleteAppointment
        (updateAppointment (runCreates Store.empty [reqA, reqB]) 0
          ⟨some "Cancelled", none⟩).2 0).2 "D1" 0 ≠
      tokenSeq (keyTokens
        (deleteAppointment
          (updateAppointment (runCreates Store.empty [reqA, reqB]) 0
            ⟨some "Cancelled", none⟩).2 0).2 "D1" 0).length := by
  decide

/-- C2 amended: for every sequence of valid create requests run one after
another from the empty store, every (doctorCode, day) key holds exactly
the dense token sequence 1..N in creation order; the update operation
never changes the tokenNumber, doctorCode or appointmentDate of any
stored appointment, and the delete operation only removes records,
never altering a surviving one — but deleting a non-maximal token leaves
a gap, so density itself is not preserved by deletion. -/
theorem C2_amended_dense_creation (reqs : List CreateRequest) (s : Store)
    (id : Nat) (u : UpdateReq) (hval : ∀ r ∈ reqs, validCreate r = true) :
    (∀ d k, keyTokens (runCreates Store.empty reqs) d k =
        tokenSeq (keyTokens (runCreates Store.empty reqs) d k).length) ∧
    (∀ i a, findById s i = some a →
        ∃ b, findById (updateAppointment s id u).2 i = some b ∧
          b.tokenNumber = a.tokenNumber ∧ b.doctorCode = a.doctorCode ∧
          b.appointmentDate = a.appointmentDate) ∧
    (∀ i b, findById (deleteAppointment s id).2 i = some b → findById s i = some b) := by
  refine ⟨?_, ?_, ?_⟩
  · intro d k
    exact runCreates_dense reqs Store.empty denseTokens_empty hval d k
  · intro i a ha
    unfold updateAppointment
    by_cases hnd : (!truthy u.status && u.medicalReport.isNone) = true
    · rw [if_pos hnd]
      exact ⟨a, ha, rfl, rfl, rfl⟩
    · rw [if_neg hnd]
      cases hf : findById s id with
      | none =>
        dsimp only
        exact ⟨a, ha, rfl, rfl, rfl⟩
      | some a0 =>
        dsimp only
        rw [findById_setById]
        by_cases hi : i = id
        · subst hi
          rw [ha] at hf
          injection hf with hf
          subst hf
          rw [if_pos rfl, ha]
          obtain ⟨-, -, -, -, -, -, -, hdte, -, hdoc, -, htok, -, -⟩ :=
            updateFieldsApply_frame u a
          exact ⟨updateFieldsApply u a, rfl, htok, hdoc, hdte⟩
        · rw [if_neg hi]
          exact ⟨a, ha, rfl, rfl, rfl⟩
  · intro i b hb
    unfold deleteAppointment at hb
    cases hf : findById s id with
    | none =>
      rw [hf] at hb
      exact hb
    | some a0 =>
      rw [hf] at hb
      dsimp only at hb
      by_cases hc : a0.status = "Cancelled"
      · rw [if_pos (by simp [hc])] at hb
        dsimp only at hb
        rw [findById_removeById] at hb
        by_cases hi : i = id
        · rw [if_pos hi] at hb
          cases hb
        · rw [if_neg hi] at hb
          exact hb
      · rw [if_neg (by simp [hc])] at hb
        exact hb

/-- C2 witness: running the two concrete valid requests from the empty
store leaves the dense token sequence for the (D1, day 0) key. -/
theorem C2_amended_dense_creation_witness :
    keyTokens (runCreates Store.empty [reqA, reqB]) "D1" 0 =
      tokenSeq (keyTokens (runCreates Store.empty [reqA, reqB]) "D1" 0).length :=
  (C2_amended_dense_creation [reqA, reqB] Store.empty 0 ⟨none, none⟩ (by decide)).1 "D1" 0

/-- C3: evaluating the interleaving of the create handler's own read and
write steps at a concrete failing input: two creations for doctor D1 on
day 0 that both run their token query against the store before either
write has persisted both compute token 1, so the stored tokens are
[1, 1] instead of the dense set {1, 2} — the read-then-write sequence of
the handler is not atomic and violates the claimed property. -/
theorem C3_race_duplicate_tokens :
    keyTokens
      (createWrite (createWrite Store.empty reqA 0 (createRead Store.empty "D1" 0))
        reqB 0 (createRead Store.empty "D1" 0)) "D1" 0 = [1, 1] ∧
    keyTokens
      (createWrite (createWrite Store.empty reqA 0 (createRead Store.empty "D1" 0))
        reqB 0 (createRead Store.empty "D1" 0)) "D1" 0 ≠
      tokenSeq (keyTokens
        (createWrite (createWrite Store.empty reqA 0 (createRead Store.empty "D1" 0))
          reqB 0 (createRead Store.empty "D1" 0)) "D1" 0).length := by
  decide

/-- C4: the delete handler removes a record exactly when it exists with
status Cancelled; an unknown id yields the not-found outcome, a
non-cancelled appointment yields the distinct forbidden outcome with the
store untouched, and after a successful delete the id no longer
resolves while every other id is untouched. -/
theorem C4_delete_guard (s : Store) (id : Nat) :
    (findById s id = none → deleteAppointment s id = (DeleteResult.notFound, s)) ∧
    (∀ a, findById s id = some a → a.status ≠ "Cancelled" →
      deleteAppointment s id = (DeleteResult.forbidden, s)) ∧
    (∀ a, findById s id = some a → a.status = "Cancelled" →
      (deleteAppointment s id).1 = DeleteResult.deleted ∧
      findById (deleteAppointment s id).2 id = none ∧
      (∀ j, j ≠ id → findById (deleteAppointment s id).2 j = findById s j)) ∧
    ((deleteAppointment s id).1 = DeleteResult.deleted ↔
      ∃ a, findById s id = some a ∧ a.status = "Cancelled") := by
  refine ⟨?_, ?_, ?_, ?_⟩
  · intro h
    unfold deleteAppointment
    rw [h]
  · intro a ha hst
    unfold deleteAppointment
    rw [ha]
    dsimp only
    rw [if_neg (by simp [hst])]
  · intro a ha hst
    have hdel : deleteAppointment s id = (DeleteResult.deleted, removeById s id) := by
      unfold deleteAppointment
      rw [ha]
      dsimp only
      rw [if_pos (by simp [hst])]
    rw [hdel]
    refine ⟨rfl, ?_, ?_⟩
    · rw [findById_removeById, if_pos rfl]
    · intro j hj
      rw [findById_removeById, if_neg hj]
  · constructor
    · intro h
      cases hf : findById s id with
      | none =>
        unfold deleteAppointment at h
        rw [hf] at h
        cases h
      | some a =>
        refine ⟨a, rfl, ?_⟩
        by_contra hst
        unfold deleteAppointment at h
        rw [hf] at h
        dsimp only at h
        rw [if_neg (by simp [hst])] at h
        cases h
    · rintro ⟨a, ha, hst⟩
      unfold deleteAppointment
      rw [ha]
      dsimp only
      rw [if_pos (by simp [hst])]

/-- C4 witness: in the concrete store, deleting the cancelled
appointment at id 0 succeeds and a subsequent fetch of id 0 returns
nothing. -/
theorem C4_delete_guard_witness :
    findById (deleteAppointment exStore4 0).2 0 = none :=
  ((C4_delete_guard exStore4 0).2.2.1 apptCancelled (by decide) (by decide)).2.1

/-- C5: a create request with any mandatory field missing or empty is
rejected with the store unchanged and zero persistence queries issued. -/
theorem C5_missing_field_rejects (s : Store) (r : CreateRequest)
    (h : truthy r.employeeCode = false ∨ truthy r.patientName = false ∨
      r.appointmentDate = none ∨ truthy r.appointmentTime = false ∨
      truthy r.doctorCode = false) :
    createAppointment s r = (CreateResult.invalidRequest, s, 0) := by
  apply createAppointment_invalid
  unfold validCreate
  rcases h with h | h | h | h | h <;> simp [h]

/-- C5 witness: the request with no employeeCode is rejected on the
empty store with no query run. -/
theorem C5_missing_field_rejects_witness :
    createAppointment Store.empty reqMissing =
      (CreateResult.invalidRequest, Store.empty, 0) :=
  C5_missing_field_rejects Store.empty reqMissing (Or.inl (by decide))

/-- C6: when at least one of status and medicalReport is supplied, the
update handler modifies only those fields of the addressed appointment,
leaves every other field and every other stored appointment unchanged,
returns the updated record, and answers an unknown id with the distinct
not-found outcome and no state change. -/
theorem C6_update_frame (s : Store) (id : Nat) (u : UpdateReq)
    (h : truthy u.status = true ∨ u.medicalReport ≠ none) :
    (findById s id = none → updateAppointment s id u = (UpdateResult.notFound, s)) ∧
    (∀ a, findById s id = some a →
      ∃ b, updateAppointment s id u = (UpdateResult.updated b, setById s id b) ∧
        findById (updateAppointment s id u).2 id = some b ∧
        b.employeeCode = a.employeeCode ∧ b.patientName = a.patientName ∧
        b.patientAge = a.patientAge ∧ b.patientGender = a.patientGender ∧
        b.patientRelation = a.patientRelation ∧ b.patientPhone = a.patientPhone ∧
        b.patientAddress = a.patientAddress ∧ b.appointmentDate = a.appointmentDate ∧
        b.appointmentTime = a.appointmentTime ∧ b.doctorCode = a.doctorCode ∧
        b.notes = a.notes ∧ b.tokenNumber = a.tokenNumber ∧
        (truthy u.status = false → b.status = a.status) ∧
        (u.medicalReport = none → b.medicalReport = a.medicalReport) ∧
        (∀ j, j ≠ id → findById (updateAppointment s id u).2 j = findById s j)) := by
  have hguard : (!truthy u.status && u.medicalReport.isNone) = false := by
    rcases h with h | h
    · simp [h]
    · cases hm : u.medicalReport with
      | none => exact absurd hm h
      | some v => simp
  constructor
  · intro hf
    unfold updateAppointment
    rw [if_neg (by simp [hguard]), hf]
  · intro a ha
    have hupd : updateAppointment s id u =
        (UpdateResult.updated (updateFieldsApply u a), setById s id (updateFieldsApply u a)) := by
      unfold updateAppointment
      rw [if_neg (by simp [hguard]), ha]
    obtain ⟨f1, f2, f3, f4, f5, f6, f7, f8, f9, f10, f11, f12, f13, f14⟩ :=
      updateFieldsApply_frame u a
    refine ⟨updateFieldsApply u a, hupd, ?_, f1, f2, f3, f4, f5, f6, f7, f8, f9, f10,
      f11, f12, f13, f14, ?_⟩
    · rw [hupd]
      dsimp only
      rw [findById_setById, if_pos rfl, ha]
      rfl
    · intro j hj
      rw [hupd]
      dsimp only
      rw [findById_setById, if_neg hj]

/-- C6 witness: updating only the status of the concrete stored
appointment produces the updated record and the expected store. -/
theorem C6_update_frame_witness :
    ∃ b, updateAppointment exStore7 0 ⟨some "Confirmed", none⟩ =
      (UpdateResult.updated b, setById exStore7 0 b) ∧ b.tokenNumber = apptJohn.tokenNumber := by
  obtain ⟨b, h1, -, -, -, -, -, -, -, -, -, -, -, -, htok, -⟩ :=
    (C6_update_frame exStore7 0 ⟨some "Confirmed", none⟩ (Or.inl (by decide))).2
      apptJohn (by decide)
  exact ⟨b, h1, htok⟩

/-- C7 counterexample: the listing handler builds an unescaped regular
expression from the query, so the query J.hn (in which the dot is a
metacharacter) returns the stored patient John even though the two
strings are not case-insensitively equal — the claimed exact-match
semantics, evaluated at the same input, returns nothing. -/
theorem C7_counterexample :
    (listByEmployeeAndPatient exStore7 (some "E1") (some "J.hn")).1 =
      ListResult.ok [apptJohn] ∧
    (specListByEmployeeAndPatient exStore7 (some "E1") (some "J.hn")).1 =
      ListResult.ok [] ∧
    ciEq (strTrim "J.hn") apptJohn.patientName = false := by
  decide

/-- C7 amended: a missing parameter is rejected before any query runs;
for trimmed patientName queries inside the modeled dot-only fragment
(every character ASCII and, the dot apart, not regular-expression
syntax) over stores of BMP patient names, the listing returns exactly
the stored appointments whose employeeCode equals the trimmed query and
whose patientName matches, whole-string and case-insensitively, the
anchored pattern built from the unescaped trimmed query, a dot matching
any character; on queries containing no regular-expression syntax
character at all this is exactly case-insensitive whole-string
equality; results are ordered by appointmentDate, appointmentTime then
tokenNumber ascending.  Queries using other regular-expression syntax
run under full ECMAScript semantics (or fail as a server error when the
pattern is malformed) and are outside this embedding, which reports
them as beyondModel rather than predicting them. -/
theorem C7_amended_list (s : Store) (ec pn : Option String) :
    (truthy ec = false ∨ truthy pn = false →
      listByEmployeeAndPatient s ec pn = (ListResult.missingParams, 0)) ∧
    (truthy ec = true → truthy pn = true →
      dotOnlyPattern (strTrim (pn.getD "")) = true → bmpNames s = true →
      ∃ l, listByEmployeeAndPatient s ec pn = (ListResult.ok l, 1) ∧
        List.Sorted (fun a b => apptLeB a b = true) l ∧
        l.Perm ((apptsOf s).filter (fun a =>
          a.employeeCode == strTrim (ec.getD "") &&
            nameMatches (strTrim (pn.getD "")) a.patientName)) ∧
        (∀ a, a ∈ l ↔ a ∈ apptsOf s ∧
          a.employeeCode = strTrim (ec.getD "") ∧
          nameMatches (strTrim (pn.getD "")) a.patientName = true)) ∧
    (∀ pat x : String, (∀ c ∈ pat.data, isRegexMeta c = false) →
      (nameMatches pat x = true ↔ ciEq pat x = true)) := by
  refine ⟨?_, ?_, ?_⟩
  · intro h
    unfold listByEmployeeAndPatient
    rcases h with h | h <;> rw [if_pos (by simp [h])]
  · intro hec hpn hdot hbmp
    have hguard : (dotOnlyPattern (strTrim (pn.getD "")) && bmpNames s) = true := by
      rw [hdot, hbmp]
      rfl
    refine ⟨sortAppts ((apptsOf s).filter (fun a =>
        a.employeeCode == strTrim (ec.getD "") &&
          nameMatches (strTrim (pn.getD "")) a.patientName)), ?_, ?_, ?_, ?_⟩
    · unfold listByEmployeeAndPatient
      rw [if_neg (by simp [hec, hpn])]
      dsimp only
      rw [if_pos hguard]
    · exact sortAppts_sorted _
    · exact sortAppts_perm _
    · intro a
      rw [(sortAppts_perm _).mem_iff, List.mem_filter]
      simp only [Bool.and_eq_true, beq_iff_eq, and_assoc]
  · intro pat x hnd
    have hnd2 : ∀ c ∈ pat.data, c ≠ '.' := by
      intro c hc hdot
      subst hdot
      exact absurd (hnd _ hc) (by decide)
    simp only [nameMatches, ciEq, beq_iff_eq]
    exact patMatch_no_dot hnd2

/-- C7 witness: the exact-match example of the specification, run
through the handler: the query john finds John but not Johnny. -/
theorem C7_amended_list_witness :
    (∃ l, listByEmployeeAndPatient exStore7 (some "E1") (some "john") =
      (ListResult.ok l, 1)) ∧
    nameMatches "john" "John" = true ∧ nameMatches "john" "Johnny" = false := by
  refine ⟨?_, by decide, by decide⟩
  obtain ⟨l, h1, -⟩ :=
    (C7_amended_list exStore7 (some "E1") (some "john")).2.1
      (by decide) (by decide) (by decide) (by decide)
  exact ⟨l, h1⟩

/-- C8: token assignment is independent across (doctorCode, day) keys:
an empty key receives token 1 whatever else the store holds, the token
read depends only on the tokens stored under the request's own key, and
a creation leaves the tokens of every other key unchanged. -/
theorem C8_key_independence (s s2 : Store) (r : CreateRequest) (t : Int)
    (hd : r.appointmentDate = some t) (hv : validCreate r = true) :
    (keyTokens s (r.doctorCode.getD "") (dayIdx t) = [] →
      ∃ a, (createAppointment s r).1 = CreateResult.created a ∧ a.tokenNumber = 1) ∧
    (keyTokens s2 (r.doctorCode.getD "") (dayIdx t) =
        keyTokens s (r.doctorCode.getD "") (dayIdx t) →
      createRead s2 (r.doctorCode.getD "") t = createRead s (r.doctorCode.getD "") t) ∧
    (∀ d k, d ≠ r.doctorCode.getD "" ∨ k ≠ dayIdx t →
      keyTokens (createAppointment s r).2.1 d k = keyTokens s d k) := by
  have hread : ∀ s3 : Store, createRead s3 (r.doctorCode.getD "") t =
      match maxOrNone (keyTokens s3 (r.doctorCode.getD "") (dayIdx t)) with
      | none => 1
      | some m => m + 1 := by
    intro s3
    rw [createRead_eq, windowTokens_day_eq_keyTokens]
  refine ⟨?_, ?_, ?_⟩
  · intro hempty
    refine ⟨mkAppointment r t (createRead s (r.doctorCode.getD "") t), ?_, ?_⟩
    · rw [createAppointment_valid s r t hd hv]
    · have hmk : (mkAppointment r t (createRead s (r.doctorCode.getD "") t)).tokenNumber =
          createRead s (r.doctorCode.getD "") t := rfl
      rw [hmk, hread s, hempty]
      rfl
  · intro heq
    rw [hread s, hread s2, heq]
  · intro d k hne
    rw [createAppointment_valid s r t hd hv]
    dsimp only
    unfold createWrite
    rw [keyTokens_insert]
    rw [if_neg ?side8]
    case side8 =>
      intro hc
      rcases hne with hne | hne
      · exact hne hc.1.symm
      · exact hne hc.2.symm
    rw [List.append_nil]

/-- C8 witness: the first appointment for doctor D2 on day 0 receives
token 1 although the store already holds an appointment of doctor D1 on
that day. -/
theorem C8_key_independence_witness :
    ∃ a, (createAppointment exStore7 reqD2).1 = CreateResult.created a ∧
      a.tokenNumber = 1 :=
  (C8_key_independence exStore7 exStore7 reqD2 0 (by decide) (by decide)).1 (by decide)

/-- C9 counterexample: the create handler stores the raw request
timestamp, not the normalized day boundary: for the valid request dated
at epoch millisecond 1000 the persisted appointmentDate is 1000, while
the normalized day boundary of that date is 0, so the stored value is
not a day boundary. -/
theorem C9_counterexample :
    (createAppointment Store.empty reqT).1 =
      CreateResult.created (mkAppointment reqT 1000 1) ∧
    (mkAppointment reqT 1000 1).appointmentDate = 1000 ∧
    dayStartOf 1000 = 0 ∧
    (mkAppointment reqT 1000 1).appointmentDate ≠
      dayStartOf (mkAppointment reqT 1000 1).appointmentDate := by
  decide

/-- C9 amended: the handler computes dayStart as the UTC midnight below
the parsed request date and dayEnd as dayStart plus one day; the stored
appointmentDate is the raw parsed date, which always lies inside
[dayStart, dayEnd), so the token-assignment query and the stored record
bucket to the same calendar day even though the stored value itself is
not normalized to the boundary. -/
theorem C9_amended_bucketing (s : Store) (r : CreateRequest) (t : Int)
    (hd : r.appointmentDate = some t) (hv : validCreate r = true) :
    ∃ a, (createAppointment s r).1 = CreateResult.created a ∧
      a.appointmentDate = t ∧
      dayStartOf t = msPerDay * dayIdx t ∧
      dayStartOf t ≤ a.appointmentDate ∧
      a.appointmentDate < dayStartOf t + msPerDay ∧
      dayIdx a.appointmentDate = dayIdx t ∧
      keyTokens (createAppointment s r).2.1 (r.doctorCode.getD "") (dayIdx t) =
        keyTokens s (r.doctorCode.getD "") (dayIdx t) ++ [a.tokenNumber] := by
  have hbounds := (dayIdx_eq_iff t (dayIdx t)).1 rfl
  refine ⟨mkAppointment r t (createRead s (r.doctorCode.getD "") t),
    ?_, rfl, rfl, hbounds.1, hbounds.2, rfl, ?_⟩
  · rw [createAppointment_valid s r t hd hv]
  · rw [createAppointment_valid s r t hd hv]
    dsimp only
    unfold createWrite
    rw [keyTokens_insert, if_pos ⟨rfl, rfl⟩]

/-- C9 witness: the concrete mid-day request lands in the bucket of its
own calendar day. -/
theorem C9_amended_bucketing_witness :
    ∃ a, (createAppointment Store.empty reqT).1 = CreateResult.created a ∧
      dayIdx a.appointmentDate = dayIdx 1000 := by
  obtain ⟨a, h1, -, -, -, -, h6, -⟩ :=
    C9_amended_bucketing Store.empty reqT 1000 (by decide) (by decide)
  exact ⟨a, h1, h6⟩

/-- C10: an empty status string counts as not supplied: together with an
absent medicalReport the request is rejected as an empty update, and
next to a supplied medicalReport it leaves status unchanged while the
report — supplied whenever present at all, a null or empty value
included — is written. -/
theorem C10_empty_status (s : Store) (id : Nat) :
    (updateAppointment s id ⟨some "", none⟩ = (UpdateResult.noData, s)) ∧
    (∀ a mr, findById s id = some a →
      ∃ b, updateAppointment s id ⟨some "", some mr⟩ =
          (UpdateResult.updated b, setById s id b) ∧
        b.status = a.status ∧ b.medicalReport = some mr) := by
  constructor
  · have hc : (!truthy (some "") && (none : Option (Option String)).isNone) = true := by
      decide
    unfold updateAppointment
    rw [if_pos hc]
  · intro a mr ha
    have hc : (!truthy (some "") && (some mr : Option (Option String)).isNone) = false := by
      simp
    unfold updateAppointment
    rw [if_neg (by simp [hc]), ha]
    exact ⟨updateFieldsApply ⟨some "", some mr⟩ a, rfl, rfl, rfl⟩

/-- C10 witness: on the concrete store, an empty status with no report
is rejected, and an empty status next to a report leaves the stored
status Pending untouched. -/
theorem C10_empty_status_witness :
    updateAppointment exStore7 0 ⟨some "", none⟩ = (UpdateResult.noData, exStore7) ∧
    ∃ b, updateAppointment exStore7 0 ⟨some "", some (some "flu")⟩ =
        (UpdateResult.updated b, setById exStore7 0 b) ∧ b.status = apptJohn.status := by
  refine ⟨(C10_empty_status exStore7 0).1, ?_⟩
  obtain ⟨b, h1, h2, -⟩ :=
    (C10_empty_status exStore7 0).2 apptJohn (some "flu") (by decide)
  exact ⟨b, h1, h2⟩
